import Mathlib

/-
Verification development for the training and evaluation drivers of the
Multi-SCA-Net repository (file opt.py). The two procedures under study are
train_one_epoch and evaluate_fn. External collaborators (model, tokenizer,
CTC decoder, metric functions, metric aggregator) are kept abstract as
function-valued environment fields, mirroring the boundary drawn by the
specification. Observable effects (gradient-mode toggling, batch pulls,
metric computations, file writes, process exit) are recorded in explicit
event traces, and Python exceptions are modelled with Except.
-/

/-- Scalar value of a tensor loss: a finite rational, NaN, or a signed
infinity. This is the domain needed by the isnan, isinf and isfinite
checks of the drivers. -/
inductive FVal where
  | finite : ℚ → FVal
  | nan : FVal
  | inf : FVal
  | negInf : FVal
deriving Repr, DecidableEq

/-- Mirrors torch.isnan on a scalar tensor. -/
def FVal.isnan : FVal → Bool
  | .nan => true
  | _ => false

/-- Mirrors torch.isinf on a scalar tensor, true for both signed infinities. -/
def FVal.isinf : FVal → Bool
  | .inf => true
  | .negInf => true
  | _ => false

/-- Mirrors math.isfinite on the float value of the loss. -/
def FVal.isfinite : FVal → Bool
  | .finite _ => true
  | _ => false

/-- IEEE-style addition on the scalar domain, used by the running meters. -/
def FVal.add : FVal → FVal → FVal
  | .finite a, .finite b => .finite (a + b)
  | .nan, _ => .nan
  | _, .nan => .nan
  | .inf, .negInf => .nan
  | .negInf, .inf => .nan
  | .inf, _ => .inf
  | _, .inf => .inf
  | .negInf, _ => .negInf
  | _, .negInf => .negInf

/-- Division of a scalar total by a natural count, for meter averages. -/
def FVal.divNat : FVal → Nat → FVal
  | _, 0 => .nan
  | .finite a, Nat.succ n => .finite (a / (Nat.succ n : ℚ))
  | .nan, Nat.succ _ => .nan
  | .inf, Nat.succ _ => .inf
  | .negInf, Nat.succ _ => .negInf

/-- One named statistic of the metric aggregator: a running total and a
count, from which the global average is read back. -/
structure Meter where
  total : FVal
  count : Nat
deriving Repr, DecidableEq

/-- Update of the metric aggregator at a named statistic, mirroring
MetricLogger.update: an existing meter accumulates, a missing one is
created. -/
def mlUpdate : List (String × Meter) → String → FVal → List (String × Meter)
  | [], k, v => [(k, ⟨v, 1⟩)]
  | (k2, m) :: rest, k, v =>
    if k2 = k then (k2, ⟨FVal.add m.total v, m.count + 1⟩) :: rest
    else (k2, m) :: mlUpdate rest k v

/-- Global averages of every meter, mirroring the dictionary returned by
both drivers. -/
def mlAverages (ml : List (String × Meter)) : List (String × FVal) :=
  ml.map (fun p => (p.1, FVal.divNat p.2.total p.2.count))

/-- Lookup in a Python dictionary represented as an insertion-ordered
association list. -/
def pyFind? {α : Type} : List (String × α) → String → Option α
  | [], _ => none
  | (k2, v) :: rest, k => if k2 = k then some v else pyFind? rest k

/-- Assignment d[k] = v on a Python dictionary: an existing key keeps its
position, a new key is appended at the end. -/
def pySet {α : Type} : List (String × α) → String → α → List (String × α)
  | [], k, v => [(k, v)]
  | (k2, w) :: rest, k, v =>
    if k2 = k then (k2, v) :: rest else (k2, w) :: pySet rest k v

/-- Per-sample field dictionary of the results table. -/
abbrev Dict := List (String × String)

/-- The results table of evaluate_fn: sample name to field dictionary,
in insertion order, as a collections.defaultdict of dict. -/
abbrev Results := List (String × Dict)

/-- Mirrors results[name][k] = v on the defaultdict: a missing sample name
is created with a one-field dictionary. -/
def resSet : Results → String → String → String → Results
  | [], n, k, v => [(n, pySet [] k v)]
  | (n2, d) :: rest, n, k, v =>
    if n2 = n then (n2, pySet d k v) :: rest else (n2, d) :: resSet rest n k v

/-- Read of results[name] for a name that is present; a missing name reads
as the empty dictionary (what the defaultdict would create). -/
def resGet (r : Results) (n : String) : Dict :=
  (pyFind? r n).getD []

/-- Sample names of the results table, in insertion order. -/
def keysOf (r : Results) : List String :=
  r.map Prod.fst

/-- Field read results[n][k] as an optional value. -/
def fieldAt (r : Results) (n k : String) : Option String :=
  pyFind? (resGet r n) k

/-- Substring test on character lists, structural so that it evaluates in
the kernel. -/
def hasSub (pat : List Char) : List Char → Bool
  | [] => pat.isEmpty
  | c :: rest => pat.isPrefixOf (c :: rest) || hasSub pat rest

/-- Mirrors the Python substring test pat in s. -/
def containsStr (s pat : String) : Bool :=
  hasSub pat.data s.data

/-- Fuel-bounded replacement of every occurrence of a pattern, structural
so that it evaluates in the kernel. -/
def replAux (pat rep : List Char) : Nat → List Char → List Char
  | _, [] => []
  | 0, s => s
  | Nat.succ fuel, c :: rest =>
    if pat.isPrefixOf (c :: rest) then
      rep ++ replAux pat rep fuel (List.drop (pat.length - 1) rest)
    else c :: replAux pat rep fuel rest

/-- Mirrors the Python s.replace(pat, rep). -/
def pyReplace (s pat rep : String) : String :=
  ⟨replAux pat.data rep.data s.data.length s.data⟩

/-- Mirrors the Python s.upper() used for case normalisation. -/
def pyUpper (s : String) : String :=
  ⟨s.data.map Char.toUpper⟩

/-- Three-way zip truncating to the shortest list, as the Python zip of the
per-sample loops. -/
def zip3 {α β γ : Type} : List α → List β → List γ → List (α × β × γ)
  | a :: as2, b :: bs2, c :: cs2 => (a, b, c) :: zip3 as2 bs2 cs2
  | _, _, _ => []

/-- External collaborators of train_one_epoch: the model forward pass (from
parameters and a batch to the total loss), backward, gradient clipping, the
optimizer step, and the current learning rate. Parameter, gradient and
optimizer-state vectors are abstracted to integers. -/
structure TrainEnv where
  forward : Int → Int → FVal
  backward : Int → Int → FVal → Int
  clip_grad_norm : Int → Int
  opt_step : Int → Int → Int → Int × Int
  lr : ℚ

/-- Mutable state touched by one training batch: model parameters, gradient
buffers, optimizer state. -/
structure TrainState where
  params : Int
  grads : Int
  opt_state : Int
deriving Repr, DecidableEq

/-- Observable actions of one training batch, in program order. -/
inductive TrainEvent where
  | zeroGradEv
  | forwardEv
  | anomalyOn
  | raiseValueError
  | backwardEv
  | clipEv
  | anomalyOff
  | optStepEv
  | modelZeroGradEv
  | exitEv (code : Nat)
  | meterEv (k : String)
deriving Repr, DecidableEq

/-- Outcome of the training loop: normal completion, a propagated
ValueError, or a process exit. -/
inductive StepRes where
  | ok (s : TrainState) (ml : List (String × Meter))
  | raised (s : TrainState) (ml : List (String × Meter))
  | exited (code : Nat) (s : TrainState) (ml : List (String × Meter))
deriving Repr, DecidableEq

/-- One batch of train_one_epoch, lines 18 to 33 of opt.py: zero the
gradients, forward, raise ValueError on a NaN or infinite loss inside the
anomaly-detection scope, otherwise backward, clip, optimizer step, zero the
model gradients, exit the process if the loss is not finite, and record the
loss and learning rate. -/
def train_step (env : TrainEnv) (s : TrainState) (ml : List (String × Meter))
    (batch : Int) : List TrainEvent × StepRes :=
  let s1 : TrainState := { s with grads := 0 }
  let loss := env.forward s1.params batch
  if loss.isnan || loss.isinf then
    ([.zeroGradEv, .forwardEv, .anomalyOn, .raiseValueError], .raised s1 ml)
  else
    let s2 : TrainState := { s1 with grads := env.backward s1.params batch loss }
    let s3 : TrainState := { s2 with grads := env.clip_grad_norm s2.grads }
    let po := env.opt_step s3.params s3.grads s3.opt_state
    let s4 : TrainState := { params := po.1, grads := s3.grads, opt_state := po.2 }
    let s5 : TrainState := { s4 with grads := 0 }
    if loss.isfinite = false then
      ([.zeroGradEv, .forwardEv, .anomalyOn, .backwardEv, .clipEv, .anomalyOff,
        .optStepEv, .modelZeroGradEv, .exitEv 1], .exited 1 s5 ml)
    else
      ([.zeroGradEv, .forwardEv, .anomalyOn, .backwardEv, .clipEv, .anomalyOff,
        .optStepEv, .modelZeroGradEv, .meterEv "loss", .meterEv "lr"],
       .ok s5 (mlUpdate (mlUpdate ml "loss" loss) "lr" (.finite env.lr)))

/-- The batch loop of train_one_epoch: batches are pulled in order and the
loop stops at a raised error or a process exit. -/
def train_loop (env : TrainEnv) : TrainState → List (String × Meter) → List Int →
    List TrainEvent × StepRes
  | s, ml, [] => ([], .ok s ml)
  | s, ml, b :: bs =>
    match train_step env s ml b with
    | (t, .ok s2 ml2) =>
      let r := train_loop env s2 ml2 bs
      (t ++ r.1, r.2)
    | (t, .raised s2 ml2) => (t, .raised s2 ml2)
    | (t, .exited c s2 ml2) => (t, .exited c s2 ml2)

/-- The whole epoch driver: the aggregator starts with the registered lr
meter and the loop runs over the full stream. -/
def train_one_epoch (env : TrainEnv) (s : TrainState) (batches : List Int) :
    List TrainEvent × StepRes :=
  train_loop env s [("lr", ⟨.finite 0, 0⟩)] batches

/-- True exactly on the process-exit outcome. -/
def isExitedRes : StepRes → Bool
  | .exited _ _ _ => true
  | _ => false

/-- Number of process-exit events in a training trace. -/
def countExit (t : List TrainEvent) : Nat :=
  t.countP (fun e => match e with | .exitEv _ => true | _ => false)

/-- One batch of the evaluation stream: sample names, reference gloss
sequences and reference texts, as produced by the data loader. -/
structure Batch where
  name : List String
  gloss_input : List String
  text : List String
deriving Repr, DecidableEq

/-- Output mapping of the model forward pass: the iterated items (key to
tensor id, gloss-logit heads among them), the input lengths, the
transformer state for generation, and the scalar total loss. -/
structure ModelOutput where
  items : List (String × Nat)
  input_lengths : Nat
  transformer_inputs : Nat
  total_loss : FVal
deriving Repr, DecidableEq

/-- Model state visible to evaluate_fn: abstract parameters and the
training-mode flag toggled by model.eval(). -/
structure ModelState where
  params : Int
  training : Bool
deriving Repr, DecidableEq

/-- Structured result of the external wer_list metric; only the wer field
is read by the driver, the rest is opaque. -/
structure WerResult where
  wer : ℚ
  rest : Int
deriving Repr, DecidableEq

/-- Structured result of the external bleu metric. -/
structure BleuDict where
  bleu1 : ℚ
  bleu2 : ℚ
  bleu3 : ℚ
  bleu4 : ℚ
deriving Repr, DecidableEq

/-- Values stored in the evaluation_results dictionary. -/
inductive EvalVal where
  | num : ℚ → EvalVal
  | werRes : WerResult → EvalVal
  | bleuRes : BleuDict → EvalVal
deriving Repr, DecidableEq

/-- The evaluation_results dictionary of evaluate_fn. -/
abbrev EvalResultsMap := List (String × EvalVal)

/-- Python exceptions that evaluate_fn can raise: an unbound local name, a
missing dictionary key, a missing attribute on the metric aggregator. -/
inductive PyErr where
  | nameError (v : String)
  | keyError (k : String)
  | attrError (a : String)
deriving Repr, DecidableEq

/-- Observable actions of one evaluation pass. -/
inductive EvalEvent where
  | gradOff
  | gradOn
  | logFreq (n : Nat)
  | pullBatch (b : Batch)
  | werCall (head : String)
  | fileWrite (path : String) (content : Results)
  | bleuCall
  | printEv (tag : String)
deriving Repr, DecidableEq

/-- External collaborators of evaluate_fn: the model forward pass and text
generation, the CTC decoder, the tokenizer, and the corpus metrics. -/
structure EvalEnv where
  forward : ModelState → Batch → ModelOutput
  ctc_decode : Nat → Nat → Nat → Nat
  batch_decode : Nat → List String
  lower_case : Bool
  generate_txt : Nat → Nat → List String
  wer_list : List String → List String → WerResult
  bleu : List String → List String → String → BleuDict
  rouge : List String → List String → String → ℚ

/-- Call arguments of evaluate_fn that the claims depend on. -/
structure EvalArgs where
  beam_size : Nat
  generate_cfg : Nat
  do_translation : Bool
  do_recognition : Bool
  print_freq : Nat
  results_path : Option String
  level : String
deriving Repr, DecidableEq

/-- State threaded through the batch loop: the results table, the residual
binding of the loop variable name, the metric aggregator, and the trace. -/
structure LoopState where
  results : Results
  lastName : Option String
  ml : List (String × Meter)
  trace : List EvalEvent
deriving Repr, DecidableEq

/-- Body of the recognition per-sample loop, lines 59 to 61 of opt.py: store
the decoded gloss hypothesis under the per-head field and the gloss
reference, upper-casing both when the tokenizer is lower case. -/
def writeGls (lower : Bool) (logitsName : String) (st : Results × Option String)
    (t : String × String × String) : Results × Option String :=
  let r1 := resSet st.1 t.1 (logitsName ++ "_gls_hyp")
    (if lower then pyUpper t.2.1 else t.2.1)
  let r2 := resSet r1 t.1 "gls_ref" (if lower then pyUpper t.2.2 else t.2.2)
  (r2, some t.1)

/-- Body of the recognition per-head loop, lines 50 to 61 of opt.py: skip
keys that are not gloss logits, CTC-decode the head, tokenize, and store
per-sample hypothesis and reference. -/
def recogItem (env : EvalEnv) (beam : Nat) (out : ModelOutput) (b : Batch)
    (st : Results × Option String) (kv : String × Nat) : Results × Option String :=
  if containsStr kv.1 "gloss_logits" = false then st
  else
    let logitsName := pyReplace kv.1 "gloss_logits" ""
    let preds := env.batch_decode (env.ctc_decode kv.2 beam out.input_lengths)
    (zip3 b.name preds b.gloss_input).foldl (writeGls env.lower_case logitsName) st

/-- Body of the translation per-sample loop, lines 66 to 68 of opt.py. -/
def transWrite (st : Results × Option String) (t : String × String × String) :
    Results × Option String :=
  (resSet (resSet st.1 t.1 "txt_hyp" t.2.1) t.1 "txt_ref" t.2.2, some t.1)

/-- The guarded recognition branch of one batch-loop iteration, lines 49 to
61 of opt.py. -/
def recogBranch (env : EvalEnv) (cfg : EvalArgs) (out : ModelOutput) (b : Batch)
    (st : Results × Option String) : Results × Option String :=
  if cfg.do_recognition then
    out.items.foldl (recogItem env cfg.beam_size out b) st
  else st

/-- The guarded translation branch of one batch-loop iteration, lines 62 to
68 of opt.py. -/
def transBranch (env : EvalEnv) (cfg : EvalArgs) (out : ModelOutput) (b : Batch)
    (st : Results × Option String) : Results × Option String :=
  if cfg.do_translation then
    (zip3 b.name (env.generate_txt out.transformer_inputs cfg.generate_cfg)
      b.text).foldl transWrite st
  else st

/-- One iteration of the batch loop, lines 47 to 69 of opt.py: forward pass,
optional recognition branch over the output items, optional translation
branch over generated text, and the loss meter update. -/
def evalBatch (env : EvalEnv) (ms : ModelState) (cfg : EvalArgs)
    (st : LoopState) (b : Batch) : LoopState :=
  let out := env.forward ms b
  let st2 := transBranch env cfg out b
    (recogBranch env cfg out b (st.results, st.lastName))
  { results := st2.1, lastName := st2.2,
    ml := mlUpdate st.ml "loss" out.total_loss,
    trace := st.trace ++ [.pullBatch b] }

/-- The full batch loop over the stream. -/
def runPass (env : EvalEnv) (ms : ModelState) (cfg : EvalArgs)
    (st0 : LoopState) (stream : List Batch) : LoopState :=
  stream.foldl (evalBatch env ms cfg) st0

/-- List comprehension [results[n][k] for n in results]: the first sample
missing the field raises KeyError. -/
def collectField : Results → String → Except PyErr (List String)
  | [], _ => .ok []
  | (_, d) :: rest, k =>
    match pyFind? d k with
    | none => .error (.keyError k)
    | some v =>
      match collectField rest k with
      | .error e => .error e
      | .ok vs => .ok (v :: vs)

/-- Current numeric value of evaluation_results at the wer key. -/
def getWer (er : EvalResultsMap) : ℚ :=
  match pyFind? er "wer" with
  | some (.num q) => q
  | _ => 0

/-- The per-head scoring loop, lines 74 to 82 of opt.py, iterating the field
keys of one sample entry: skip keys without gls_hyp, gather references and
hypotheses over all samples, call wer_list, store the per-head statistics
and fold the minimum into the wer entry. -/
def scoreHeads (env : EvalEnv) (results : Results) :
    List String → EvalResultsMap → List EvalEvent →
    List EvalEvent × Except PyErr EvalResultsMap
  | [], er, evs => (evs, .ok er)
  | h :: t, er, evs =>
    if containsStr h "gls_hyp" = false then scoreHeads env results t er evs
    else
      match collectField results "gls_ref" with
      | .error e => (evs, .error e)
      | .ok refs =>
        match collectField results h with
        | .error e => (evs, .error e)
        | .ok hyps =>
          let wr := env.wer_list hyps refs
          let k := pyReplace h "gls_hyp" ""
          let er1 := pySet er (k ++ "wer_list") (.werRes wr)
          let er2 := pySet er1 "wer" (.num (min wr.wer (getWer er1)))
          scoreHeads env results t er2 (evs ++ [.werCall h])

/-- Recognition scoring, lines 71 to 82 of opt.py: the wer entry starts at
the 200 sentinel and the head keys come from the entry of the residual
loop-variable name; an unbound name raises NameError. -/
def recogScore (env : EvalEnv) (results : Results) (lastName : Option String) :
    List EvalEvent × Except PyErr EvalResultsMap :=
  match lastName with
  | none => ([], .error (.nameError "name"))
  | some nm =>
    scoreHeads env results ((resGet results nm).map Prod.fst)
      [("wer", .num 200)] []

/-- Serialization of the results table, lines 86 to 88 of opt.py: a single
truncating write of the whole table when a path is supplied. -/
def writeTrace (path : Option String) (results : Results) : List EvalEvent :=
  match path with
  | some p => [.fileWrite p results]
  | none => []

/-- Translation scoring, lines 90 to 104 of opt.py: gather references and
hypotheses, compute bleu and rouge, print them, then assign into
evaluation_results, which raises when that local is unbound, and update the
bleu and rouge meters. -/
def transScore (env : EvalEnv) (level : String) (results : Results)
    (erOpt : Option EvalResultsMap) (ml : List (String × Meter)) :
    List EvalEvent × Except PyErr (Option EvalResultsMap × List (String × Meter)) :=
  match collectField results "txt_ref" with
  | .error e => ([], .error e)
  | .ok trefs =>
    match collectField results "txt_hyp" with
    | .error e => ([], .error e)
    | .ok thyps =>
      let bd := env.bleu trefs thyps level
      let rs := env.rouge trefs thyps level
      match erOpt with
      | none => ([.bleuCall], .error (.nameError "evaluation_results"))
      | some er =>
        let er2 := pySet (pySet er "rouge" (.num rs)) "bleu" (.bleuRes bd)
        let ml2 := mlUpdate (mlUpdate (mlUpdate (mlUpdate (mlUpdate ml
          "bleu1" (.finite bd.bleu1)) "bleu2" (.finite bd.bleu2))
          "bleu3" (.finite bd.bleu3)) "bleu4" (.finite bd.bleu4))
          "rouge" (.finite rs)
        ([.bleuCall], .ok (some er2, ml2))

/-- Recognition part of the post-pass phase, lines 71 to 84 of opt.py: when
recognition is enabled, run the scoring and update the wer meter, otherwise
leave the aggregator alone and the evaluation_results local unbound. -/
def recogPhase (env : EvalEnv) (cfg : EvalArgs) (ls : LoopState) :
    List EvalEvent × Except PyErr (List (String × Meter) × Option EvalResultsMap) :=
  if cfg.do_recognition then
    match recogScore env ls.results ls.lastName with
    | (evs, .error e) => (evs, .error e)
    | (evs, .ok er) =>
      (evs, .ok (mlUpdate ls.ml "wer" (.finite (getWer er)), some er))
  else ([], .ok (ls.ml, none))

/-- Post-pass phase inside the no-grad scope, lines 71 to 104 of opt.py:
recognition scoring with the wer meter update, the optional file write, and
translation scoring. -/
def postPass (env : EvalEnv) (cfg : EvalArgs) (ls : LoopState) :
    List EvalEvent × Except PyErr (List (String × Meter)) :=
  match recogPhase env cfg ls with
  | (evs, .error e) => (evs, .error e)
  | (evs, .ok (ml1, erOpt)) =>
    let evs1 := evs ++ writeTrace cfg.results_path ls.results
    if cfg.do_translation then
      match transScore env cfg.level ls.results erOpt ml1 with
      | (tevs, .error e) => (evs1 ++ tevs, .error e)
      | (tevs, .ok (_, ml2)) => (evs1 ++ tevs, .ok ml2)
    else (evs1, .ok ml1)

/-- Epilogue outside the no-grad scope, lines 109 to 112 of opt.py: the
final prints, where reading the loss attribute of the aggregator raises
when no loss meter exists, and the returned averages. -/
def evalTail (res : Except PyErr (List (String × Meter))) :
    List EvalEvent × Except PyErr (List (String × FVal)) :=
  match res with
  | .error e => ([], .error e)
  | .ok ml =>
    match pyFind? ml "loss" with
    | none => ([], .error (.attrError "loss"))
    | some _ => ([.printEv "averaged", .printEv "dev_loss"], .ok (mlAverages ml))

/-- State of the batch loop after the whole pass, starting from the empty
results table, in evaluation mode, with the print frequency already
overwritten to 10 as on line 43 of opt.py. -/
def passState (env : EvalEnv) (ms : ModelState) (cfg : EvalArgs)
    (stream : List Batch) : LoopState :=
  runPass env { ms with training := false } { cfg with print_freq := 10 }
    { results := [], lastName := none, ml := [], trace := [.logFreq 10] } stream

deriving instance DecidableEq for Except

/-- Result of the whole evaluation driver: the event trace, the final model
state, and the returned averages or the propagated exception. -/
structure EvalOut where
  trace : List EvalEvent
  model_state : ModelState
  result : Except PyErr (List (String × FVal))
deriving Repr, DecidableEq

/-- The whole evaluation driver evaluate_fn, lines 38 to 112 of opt.py:
model.eval(), print_freq overwritten to 10, the batch loop and post-pass
phases inside the no-grad scope, and the epilogue. -/
def evaluate_fn (env : EvalEnv) (ms : ModelState) (cfg : EvalArgs)
    (stream : List Batch) : EvalOut :=
  let ms1 : ModelState := { ms with training := false }
  let cfg1 : EvalArgs := { cfg with print_freq := 10 }
  let ls := passState env ms cfg stream
  let pp := postPass env cfg1 ls
  let tl := evalTail pp.2
  { trace := .gradOff :: (ls.trace ++ pp.1) ++ .gradOn :: tl.1,
    model_state := ms1, result := tl.2 }

/-- True when the second component of a recognition-scoring run is a normal
result. -/
def isOkR (r : List EvalEvent × Except PyErr EvalResultsMap) : Bool :=
  match r.2 with
  | .ok _ => true
  | .error _ => false

/-- The wer entry of the evaluation results of a successful scoring run. -/
def werOfRun (r : List EvalEvent × Except PyErr EvalResultsMap) : ℚ :=
  match r.2 with
  | .ok er => getWer er
  | .error _ => 0

/-- Field keys of one sample entry that name a per-head gloss hypothesis. -/
def glsKeysOf (d : Dict) : List String :=
  (d.map Prod.fst).filter (fun k => containsStr k "gls_hyp")

/-- Heads for which wer_list was called, read off the event trace. -/
def werCallHeads (evs : List EvalEvent) : List String :=
  evs.filterMap (fun e => match e with | .werCall h => some h | _ => none)

/-- Corpus wer of one head as the specification describes it: wer_list over
all accumulated hypothesis and reference pairs of that head. -/
def headWerOf (env : EvalEnv) (results : Results) (h : String) : ℚ :=
  match collectField results "gls_ref", collectField results h with
  | .ok refs, .ok hyps => (env.wer_list hyps refs).wer
  | _, _ => 0

/-- Minimum of a list of head scores, folded from the 200 sentinel. -/
def minSentinel (ws : List ℚ) : ℚ :=
  ws.foldr min 200

/-- Field keys owned by the translation branch. -/
def txtField (k : String) : Bool :=
  k == "txt_hyp" || k == "txt_ref"

/-- Field keys owned by the recognition branch. -/
def glossField (k : String) : Bool :=
  containsStr k "gls_hyp" || k == "gls_ref"

/-- A batch is covered by the recognition branch when some gloss-logit head
exists in the forward output and its decoded hypothesis list and the gloss
references are at least as long as the name list, so the per-sample zip
reaches every name. -/
def covers (env : EvalEnv) (ms : ModelState) (beam : Nat) (b : Batch) : Bool :=
  (env.forward ms b).items.any (fun kv =>
    containsStr kv.1 "gloss_logits" &&
    decide (b.name.length ≤
      (env.batch_decode (env.ctc_decode kv.2 beam
        (env.forward ms b).input_lengths)).length) &&
    decide (b.name.length ≤ b.gloss_input.length))

/-- True exactly on file-write events. -/
def isFileWrite : EvalEvent → Bool
  | .fileWrite _ _ => true
  | _ => false

/-- Concrete batch used by the witnesses. -/
def wBatch : Batch :=
  { name := ["A", "B"], gloss_input := ["ga", "gb"], text := ["ta", "tb"] }

/-- Concrete forward output used by the witnesses: one gloss head plus one
non-gloss key that the head loop must skip. -/
def wOut : ModelOutput :=
  { items := [("gloss_logits", 7), ("other", 0)], input_lengths := 2,
    transformer_inputs := 3, total_loss := .finite 1 }

/-- Concrete evaluation environment used by the witnesses. -/
def wEnv : EvalEnv :=
  { forward := fun _ _ => wOut,
    ctc_decode := fun l _ _ => l,
    batch_decode := fun _ => ["ha", "hb"],
    lower_case := false,
    generate_txt := fun _ _ => ["tha", "thb"],
    wer_list := fun hyps _ => { wer := (hyps.length : ℚ) * 10, rest := 0 },
    bleu := fun _ _ _ => { bleu1 := 1, bleu2 := 2, bleu3 := 3, bleu4 := 4 },
    rouge := fun _ _ _ => 5 }

/-- Concrete model state used by the witnesses. -/
def wMs : ModelState :=
  { params := 3, training := false }

/-- Concrete empty loop state used by the witnesses. -/
def wInit : LoopState :=
  { results := [], lastName := none, ml := [], trace := [] }

/-- Concrete recognition-only arguments with a results path. -/
def wCfgRec : EvalArgs :=
  { beam_size := 1, generate_cfg := 0, do_translation := false,
    do_recognition := true, print_freq := 1,
    results_path := some "results.json", level := "word" }

/-- Concrete translation-only arguments. -/
def wCfgTrans : EvalArgs :=
  { beam_size := 1, generate_cfg := 0, do_translation := true,
    do_recognition := false, print_freq := 1,
    results_path := none, level := "word" }

/-- Concrete results table used by the scoring witnesses. -/
def wResults : Results :=
  [("A", [("_gls_hyp", "h a"), ("gls_ref", "r a")]),
   ("B", [("_gls_hyp", "h b"), ("gls_ref", "r b")])]

/-- Environment whose forward output has no gloss head, used by the
counterexamples. -/
def xEnvNoHeads : EvalEnv :=
  { wEnv with forward := fun _ _ =>
      { items := [], input_lengths := 0, transformer_inputs := 0,
        total_loss := .finite 1 } }

/-- Concrete training environment whose loss is always NaN. -/
def wTrainEnv : TrainEnv :=
  { forward := fun _ _ => .nan,
    backward := fun _ _ _ => 1,
    clip_grad_norm := fun g => g,
    opt_step := fun p _ o => (p + 1, o + 1),
    lr := 1 / 100 }

/-- Concrete training state used by the witnesses. -/
def wTrainState : TrainState :=
  { params := 5, grads := 2, opt_state := 9 }

/-- Concrete initial aggregator of the training witnesses. -/
def wML : List (String × Meter) :=
  [("lr", ⟨.finite 0, 0⟩)]

theorem pyFind?_pySet {α : Type} (m : List (String × α)) (k k2 : String) (v : α) :
    pyFind? (pySet m k v) k2 = if k2 = k then some v else pyFind? m k2 := by
  induction m with
  | nil =>
    by_cases h : k2 = k
    · subst h; simp [pySet, pyFind?]
    · have h2 : ¬k = k2 := fun he => h he.symm
      simp [pySet, pyFind?, h, h2]
  | cons hd tl ih =>
    obtain ⟨k3, w⟩ := hd
    by_cases h1 : k3 = k
    · subst h1
      by_cases h2 : k2 = k3
      · subst h2; simp [pySet, pyFind?]
      · have h3 : ¬k3 = k2 := fun he => h2 he.symm
        simp [pySet, pyFind?, h2, h3]
    · by_cases h2 : k3 = k2
      · subst h2
        simp [pySet, pyFind?, h1]
      · simp [pySet, pyFind?, h1, h2, ih]

theorem resGet_cons (n3 : String) (d : Dict) (tl : Results) (n2 : String) :
    resGet ((n3, d) :: tl) n2 = if n3 = n2 then d else resGet tl n2 := by
  by_cases h : n3 = n2 <;> simp [resGet, pyFind?, h]

theorem resGet_resSet (r : Results) (n k v n2 : String) :
    resGet (resSet r n k v) n2 =
      if n2 = n then pySet (resGet r n) k v else resGet r n2 := by
  induction r with
  | nil =>
    by_cases h : n2 = n
    · subst h; simp [resSet, resGet, pyFind?]
    · have h2 : ¬n = n2 := fun he => h he.symm
      simp [resSet, resGet, pyFind?, h, h2]
  | cons hd tl ih =>
    obtain ⟨n3, d⟩ := hd
    by_cases h1 : n3 = n
    · subst h1
      by_cases h2 : n2 = n3
      · subst h2; simp [resSet, resGet_cons]
      · have h3 : ¬n3 = n2 := fun he => h2 he.symm
        simp [resSet, resGet_cons, h2, h3]
    · by_cases h2 : n3 = n2
      · subst h2
        simp [resSet, resGet_cons, h1]
      · simp [resSet, resGet_cons, h1, h2, ih]

theorem fieldAt_resSet (r : Results) (n k v n2 k2 : String) :
    fieldAt (resSet r n k v) n2 k2 =
      if n2 = n ∧ k2 = k then some v else fieldAt r n2 k2 := by
  unfold fieldAt
  rw [resGet_resSet]
  by_cases h1 : n2 = n
  · subst h1
    rw [if_pos rfl, pyFind?_pySet]
    by_cases h2 : k2 = k
    · simp [h2]
    · simp [h2]
  · simp [h1]

theorem mem_keysOf_resSet (r : Results) (n k v n2 : String) :
    n2 ∈ keysOf (resSet r n k v) ↔ n2 ∈ keysOf r ∨ n2 = n := by
  induction r with
  | nil => simp [resSet, keysOf]
  | cons hd tl ih =>
    obtain ⟨n3, d⟩ := hd
    by_cases h1 : n3 = n
    · subst h1
      simp [resSet, keysOf]
      tauto
    · simp only [resSet, if_neg h1, keysOf, List.map_cons, List.mem_cons]
      rw [keysOf] at ih
      tauto

theorem train_loop_append (env : TrainEnv) (pre : List Int) :
    ∀ s ml t s2 ml2, train_loop env s ml pre = (t, .ok s2 ml2) →
    ∀ qs, train_loop env s ml (pre ++ qs) =
      (t ++ (train_loop env s2 ml2 qs).1, (train_loop env s2 ml2 qs).2) := by
  induction pre with
  | nil =>
    intro s ml t s2 ml2 h qs
    simp only [train_loop, Prod.mk.injEq] at h
    obtain ⟨ht, hres⟩ := h
    simp only [StepRes.ok.injEq] at hres
    obtain ⟨rfl, rfl⟩ := hres
    subst ht
    simp
  | cons b bs ih =>
    intro s ml t s2 ml2 h qs
    rw [List.cons_append]
    simp only [train_loop] at h ⊢
    cases hstep : train_step env s ml b with
    | mk tb res =>
      cases res with
      | ok s3 ml3 =>
        rw [hstep] at h
        simp only at h
        cases hloop : train_loop env s3 ml3 bs with
        | mk t4 res4 =>
          rw [hloop] at h
          simp only [Prod.mk.injEq] at h
          obtain ⟨ht, hres⟩ := h
          subst hres
          show (tb ++ (train_loop env s3 ml3 (bs ++ qs)).1,
              (train_loop env s3 ml3 (bs ++ qs)).2) =
            (t ++ (train_loop env s2 ml2 qs).1, (train_loop env s2 ml2 qs).2)
          rw [ih s3 ml3 t4 s2 ml2 hloop qs]
          rw [← ht]
          simp
      | raised s3 ml3 =>
        rw [hstep] at h
        simp at h
      | exited c s3 ml3 =>
        rw [hstep] at h
        simp at h

/-- C1: for every batch whose total loss is NaN or infinite, train_one_epoch
raises the divergence ValueError before backward, gradient clipping or the
optimizer step run for that batch, so model parameters and optimizer state
are unchanged by that batch. -/
theorem train_raises_before_optimizer_step
    (env : TrainEnv) (s s2 : TrainState) (ml ml2 : List (String × Meter))
    (pre : List Int) (b : Int) (rest : List Int) (t : List TrainEvent)
    (hpre : train_loop env s ml pre = (t, .ok s2 ml2))
    (hdiv : ((env.forward s2.params b).isnan || (env.forward s2.params b).isinf) = true) :
    ∃ s3 tb, train_loop env s ml (pre ++ b :: rest) = (t ++ tb, .raised s3 ml2) ∧
      s3.params = s2.params ∧ s3.opt_state = s2.opt_state ∧
      TrainEvent.raiseValueError ∈ tb ∧ TrainEvent.backwardEv ∉ tb ∧
      TrainEvent.clipEv ∉ tb ∧ TrainEvent.optStepEv ∉ tb := by
  have hl := train_loop_append env pre s ml t s2 ml2 hpre (b :: rest)
  have hstep : train_step env s2 ml2 b =
      ([.zeroGradEv, .forwardEv, .anomalyOn, .raiseValueError],
        .raised { s2 with grads := 0 } ml2) := by
    simp [train_step, hdiv]
  refine ⟨{ s2 with grads := 0 },
    [.zeroGradEv, .forwardEv, .anomalyOn, .raiseValueError], ?_, rfl, rfl,
    by decide, by decide, by decide, by decide⟩
  rw [hl]
  rw [train_loop, hstep]

theorem train_step_cases (env : TrainEnv) (s : TrainState)
    (ml : List (String × Meter)) (b : Int) :
    (train_step env s ml b =
      ([.zeroGradEv, .forwardEv, .anomalyOn, .raiseValueError],
        .raised { s with grads := 0 } ml)) ∨
    (∃ s2 ml2, train_step env s ml b =
      ([.zeroGradEv, .forwardEv, .anomalyOn, .backwardEv, .clipEv, .anomalyOff,
        .optStepEv, .modelZeroGradEv, .meterEv "loss", .meterEv "lr"],
        .ok s2 ml2)) := by
  simp only [train_step]
  cases henv : env.forward s.params b with
  | finite q =>
    right
    simp only [FVal.isnan, FVal.isinf, FVal.isfinite, Bool.or_self,
      Bool.false_eq_true, if_false, if_neg]
    exact ⟨_, _, rfl⟩
  | nan => left; simp [FVal.isnan, FVal.isinf]
  | inf => left; simp [FVal.isnan, FVal.isinf]
  | negInf => left; simp [FVal.isnan, FVal.isinf]

/-- C2: the post-backward finiteness check of train_one_epoch never fires:
no run of the training loop produces a process exit, because a batch with a
non-finite loss already raised inside the anomaly-detection scope and the
loss is not modified between the two checks. -/
theorem post_backward_exit_unreachable (env : TrainEnv) (s : TrainState)
    (ml : List (String × Meter)) (batches : List Int) :
    isExitedRes (train_loop env s ml batches).2 = false ∧
      countExit (train_loop env s ml batches).1 = 0 := by
  induction batches generalizing s ml with
  | nil => simp [train_loop, isExitedRes, countExit]
  | cons b bs ih =>
    simp only [train_loop]
    rcases train_step_cases env s ml b with h | ⟨s2, ml2, h⟩
    · rw [h]
      refine ⟨rfl, ?_⟩
      show countExit [TrainEvent.zeroGradEv, TrainEvent.forwardEv,
        TrainEvent.anomalyOn, TrainEvent.raiseValueError] = 0
      decide
    · rw [h]
      simp only
      cases hloop : train_loop env s2 ml2 bs with
      | mk t4 res4 =>
        have ihs := ih s2 ml2
        rw [hloop] at ihs
        refine ⟨ihs.1, ?_⟩
        simp only [countExit] at ihs ⊢
        rw [List.countP_append, ihs.2]
        decide

/-- Witness for C1: a concrete batch with a NaN loss raises before any
parameter update. -/
theorem train_raises_witness :
    train_loop wTrainEnv wTrainState wML [] = ([], .ok wTrainState wML) ∧
    ((wTrainEnv.forward wTrainState.params 0).isnan ||
      (wTrainEnv.forward wTrainState.params 0).isinf) = true ∧
    (∃ s3 tb, train_loop wTrainEnv wTrainState wML ([] ++ 0 :: []) =
        ([] ++ tb, .raised s3 wML) ∧
      s3.params = wTrainState.params ∧ s3.opt_state = wTrainState.opt_state ∧
      TrainEvent.raiseValueError ∈ tb ∧ TrainEvent.backwardEv ∉ tb ∧
      TrainEvent.clipEv ∉ tb ∧ TrainEvent.optStepEv ∉ tb) :=
  ⟨rfl, rfl, train_raises_before_optimizer_step wTrainEnv wTrainState
    wTrainState wML wML [] 0 [] [] rfl rfl⟩

theorem evalBatch_trace (env : EvalEnv) (ms : ModelState) (cfg : EvalArgs)
    (st : LoopState) (b : Batch) :
    (evalBatch env ms cfg st b).trace = st.trace ++ [EvalEvent.pullBatch b] := rfl

theorem runPass_cons (env : EvalEnv) (ms : ModelState) (cfg : EvalArgs)
    (st0 : LoopState) (b : Batch) (bs : List Batch) :
    runPass env ms cfg st0 (b :: bs) =
      runPass env ms cfg (evalBatch env ms cfg st0 b) bs := rfl

theorem runPass_trace_mem (env : EvalEnv) (ms : ModelState) (cfg : EvalArgs)
    (stream : List Batch) :
    ∀ st0 e, e ∈ (runPass env ms cfg st0 stream).trace →
      e ∈ st0.trace ∨ ∃ b2, e = EvalEvent.pullBatch b2 := by
  induction stream with
  | nil => intro st0 e h; exact Or.inl h
  | cons b bs ih =>
    intro st0 e h
    rw [runPass_cons] at h
    rcases ih _ e h with h2 | h2
    · rw [evalBatch_trace] at h2
      rcases List.mem_append.1 h2 with h3 | h3
      · exact Or.inl h3
      · exact Or.inr ⟨b, by simpa using h3⟩
    · exact Or.inr h2

theorem runPass_trace_grows (env : EvalEnv) (ms : ModelState) (cfg : EvalArgs)
    (stream : List Batch) :
    ∀ st0 e, e ∈ st0.trace → e ∈ (runPass env ms cfg st0 stream).trace := by
  induction stream with
  | nil => intro st0 e h; exact h
  | cons b bs ih =>
    intro st0 e h
    rw [runPass_cons]
    exact ih _ e (by rw [evalBatch_trace]; exact List.mem_append_left _ h)

theorem runPass_pulls (env : EvalEnv) (ms : ModelState) (cfg : EvalArgs)
    (stream : List Batch) :
    ∀ st0 b, b ∈ stream →
      EvalEvent.pullBatch b ∈ (runPass env ms cfg st0 stream).trace := by
  induction stream with
  | nil => intro st0 b h; cases h
  | cons b2 bs ih =>
    intro st0 b h
    rcases List.mem_cons.1 h with h2 | h2
    · subst h2
      rw [runPass_cons]
      exact runPass_trace_grows env ms cfg bs _ _
        (by rw [evalBatch_trace]; exact List.mem_append_right _ (by simp))
    · rw [runPass_cons]; exact ih _ b h2

theorem scoreHeads_events (env : EvalEnv) (results : Results) (keys : List String) :
    ∀ er evs e, e ∈ (scoreHeads env results keys er evs).1 →
      e ∈ evs ∨ ∃ h2, e = EvalEvent.werCall h2 := by
  induction keys with
  | nil => intro er evs e h; exact Or.inl h
  | cons hk t ih =>
    intro er evs e h
    by_cases hc : containsStr hk "gls_hyp" = false
    · rw [scoreHeads, if_pos hc] at h
      exact ih er evs e h
    · rw [scoreHeads, if_neg hc] at h
      cases hr : collectField results "gls_ref" with
      | error e2 => rw [hr] at h; exact Or.inl h
      | ok refs =>
        rw [hr] at h
        cases hh : collectField results hk with
        | error e2 => rw [hh] at h; exact Or.inl h
        | ok hyps =>
          rw [hh] at h
          simp only at h
          rcases ih _ _ e h with h2 | h2
          · rcases List.mem_append.1 h2 with h3 | h3
            · exact Or.inl h3
            · exact Or.inr ⟨hk, by simpa using h3⟩
          · exact Or.inr h2

theorem recogScore_events (env : EvalEnv) (results : Results)
    (ln : Option String) :
    ∀ e ∈ (recogScore env results ln).1, ∃ h2, e = EvalEvent.werCall h2 := by
  intro e he
  cases ln with
  | none => simp [recogScore] at he
  | some nm =>
    have he2 : e ∈ (scoreHeads env results ((resGet results nm).map Prod.fst)
        [("wer", EvalVal.num 200)] []).1 := he
    rcases scoreHeads_events env results _ _ _ e he2 with h | h
    · simp at h
    · exact h

theorem recogPhase_events (env : EvalEnv) (cfg : EvalArgs) (ls : LoopState) :
    ∀ e ∈ (recogPhase env cfg ls).1, ∃ h2, e = EvalEvent.werCall h2 := by
  intro e he
  unfold recogPhase at he
  cases hcr : cfg.do_recognition with
  | false => rw [hcr] at he; simp at he
  | true =>
    rw [hcr] at he
    simp only [if_true] at he
    cases hsc : recogScore env ls.results ls.lastName with
    | mk evs res =>
      rw [hsc] at he
      cases res with
      | error err =>
        simp only at he
        exact recogScore_events env ls.results ls.lastName e (by rw [hsc]; exact he)
      | ok er =>
        simp only at he
        exact recogScore_events env ls.results ls.lastName e (by rw [hsc]; exact he)

theorem transScore_trace (env : EvalEnv) (level : String) (results : Results)
    (erOpt : Option EvalResultsMap) (ml : List (String × Meter)) :
    (transScore env level results erOpt ml).1 = [] ∨
      (transScore env level results erOpt ml).1 = [EvalEvent.bleuCall] := by
  unfold transScore
  cases collectField results "txt_ref" with
  | error e => simp
  | ok trefs =>
    cases collectField results "txt_hyp" with
    | error e => simp
    | ok thyps =>
      cases erOpt with
      | none => simp
      | some er => simp

theorem transScore_none_err (env : EvalEnv) (level : String) (results : Results)
    (ml : List (String × Meter)) :
    ∃ e2, (transScore env level results none ml).2 = .error e2 := by
  unfold transScore
  cases collectField results "txt_ref" with
  | error e => exact ⟨e, rfl⟩
  | ok trefs =>
    cases collectField results "txt_hyp" with
    | error e => exact ⟨e, rfl⟩
    | ok thyps => exact ⟨.nameError "evaluation_results", rfl⟩

theorem writeTrace_mem (path : Option String) (results : Results) :
    ∀ e ∈ writeTrace path results, ∃ p c, e = EvalEvent.fileWrite p c := by
  intro e he
  cases path with
  | none => simp [writeTrace] at he
  | some p =>
    simp [writeTrace] at he
    exact ⟨p, results, he⟩

theorem postPass_err (env : EvalEnv) (cfg : EvalArgs) (ls : LoopState)
    (evs : List EvalEvent) (err : PyErr)
    (h : recogPhase env cfg ls = (evs, .error err)) :
    postPass env cfg ls = (evs, .error err) := by
  unfold postPass
  rw [h]

theorem postPass_ok (env : EvalEnv) (cfg : EvalArgs) (ls : LoopState)
    (evs : List EvalEvent) (ml1 : List (String × Meter))
    (erOpt : Option EvalResultsMap)
    (h : recogPhase env cfg ls = (evs, .ok (ml1, erOpt))) :
    ∃ tEvs res2, postPass env cfg ls =
      (evs ++ writeTrace cfg.results_path ls.results ++ tEvs, res2) ∧
      (tEvs = [] ∨ tEvs = [EvalEvent.bleuCall]) := by
  unfold postPass
  rw [h]
  by_cases ht : cfg.do_translation = true
  · simp only [ht, if_true]
    cases htr : transScore env cfg.level ls.results erOpt ml1 with
    | mk tevs res3 =>
      have htevs := transScore_trace env cfg.level ls.results erOpt ml1
      rw [htr] at htevs
      cases res3 with
      | error e2 =>
        exact ⟨tevs, .error e2, by simp, htevs⟩
      | ok pr =>
        exact ⟨tevs, .ok pr.2, by simp, htevs⟩
  · simp only [ht, if_false]
    exact ⟨[], .ok ml1, by simp, Or.inl rfl⟩

theorem postPass_events (env : EvalEnv) (cfg : EvalArgs) (ls : LoopState) :
    ∀ e ∈ (postPass env cfg ls).1,
      (∃ h2, e = EvalEvent.werCall h2) ∨
      (∃ p c, e = EvalEvent.fileWrite p c) ∨ e = EvalEvent.bleuCall := by
  intro e he
  cases hrp : recogPhase env cfg ls with
  | mk evs res =>
    cases res with
    | error err =>
      rw [postPass_err env cfg ls evs err hrp] at he
      exact Or.inl (recogPhase_events env cfg ls e (by rw [hrp]; exact he))
    | ok pr =>
      obtain ⟨ml1, erOpt⟩ := pr
      obtain ⟨tEvs, res2, hshape, htE⟩ := postPass_ok env cfg ls evs ml1 erOpt hrp
      rw [hshape] at he
      simp only [List.mem_append] at he
      rcases he with (h1 | h1) | h1
      · exact Or.inl (recogPhase_events env cfg ls e (by rw [hrp]; exact h1))
      · exact Or.inr (Or.inl (writeTrace_mem cfg.results_path ls.results e h1))
      · rcases htE with h2 | h2
        · rw [h2] at h1; simp at h1
        · rw [h2] at h1
          simp at h1
          exact Or.inr (Or.inr h1)

theorem evalTail_events (res : Except PyErr (List (String × Meter))) :
    ∀ e ∈ (evalTail res).1, ∃ tag, e = EvalEvent.printEv tag := by
  intro e he
  cases res with
  | error err => simp [evalTail] at he
  | ok ml =>
    simp only [evalTail] at he
    cases hfind : pyFind? ml "loss" with
    | none => rw [hfind] at he; simp at he
    | some m =>
      rw [hfind] at he
      simp at he
      rcases he with h | h
      · exact ⟨"averaged", h⟩
      · exact ⟨"dev_loss", h⟩

/-- C8: gradient-computation-disabled mode is entered before the first batch
is pulled and restored exactly once when the pass ends, on every control
path of evaluate_fn, error outcomes included; no batch is pulled outside
the scope. -/
theorem no_grad_scope_brackets_pass (env : EvalEnv) (ms : ModelState)
    (cfg : EvalArgs) (stream : List Batch) :
    ∃ body post, (evaluate_fn env ms cfg stream).trace =
        EvalEvent.gradOff :: body ++ EvalEvent.gradOn :: post ∧
      EvalEvent.gradOff ∉ body ∧ EvalEvent.gradOn ∉ body ∧
      (∀ b, EvalEvent.pullBatch b ∉ post) ∧
      (∀ b ∈ stream, EvalEvent.pullBatch b ∈ body) := by
  refine ⟨(passState env ms cfg stream).trace ++
      (postPass env { cfg with print_freq := 10 } (passState env ms cfg stream)).1,
    (evalTail (postPass env { cfg with print_freq := 10 }
      (passState env ms cfg stream)).2).1, rfl, ?_, ?_, ?_, ?_⟩
  · intro hmem
    rcases List.mem_append.1 hmem with h | h
    · have h2 : EvalEvent.gradOff ∈ (runPass env { ms with training := false }
          { cfg with print_freq := 10 }
          { results := [], lastName := none, ml := [],
            trace := [EvalEvent.logFreq 10] } stream).trace := h
      rcases runPass_trace_mem env _ _ stream _ _ h2 with h3 | ⟨b2, h3⟩
      · simp at h3
      · simp at h3
    · rcases postPass_events env _ _ EvalEvent.gradOff h with ⟨h2, h3⟩ | ⟨p, c, h3⟩ | h3 <;>
        simp at h3
  · intro hmem
    rcases List.mem_append.1 hmem with h | h
    · have h2 : EvalEvent.gradOn ∈ (runPass env { ms with training := false }
          { cfg with print_freq := 10 }
          { results := [], lastName := none, ml := [],
            trace := [EvalEvent.logFreq 10] } stream).trace := h
      rcases runPass_trace_mem env _ _ stream _ _ h2 with h3 | ⟨b2, h3⟩
      · simp at h3
      · simp at h3
    · rcases postPass_events env _ _ EvalEvent.gradOn h with ⟨h2, h3⟩ | ⟨p, c, h3⟩ | h3 <;>
        simp at h3
  · intro b hmem
    obtain ⟨tag, h⟩ := evalTail_events _ _ hmem
    simp at h
  · intro b hb
    apply List.mem_append_left
    exact runPass_pulls env _ _ stream _ b hb

/-- C10: the print_freq parameter of evaluate_fn has no effect: it is
unconditionally overwritten with 10 before the batch loop, so any two
values give identical traces, results and averages. -/
theorem print_freq_has_no_effect (env : EvalEnv) (ms : ModelState)
    (cfg : EvalArgs) (stream : List Batch) (pf1 pf2 : Nat) :
    evaluate_fn env ms { cfg with print_freq := pf1 } stream =
      evaluate_fn env ms { cfg with print_freq := pf2 } stream := by
  cases cfg
  rfl

/-- C7: evaluate_fn never mutates the model parameters, and on a frozen
model a second run over the identical stream returns an identical output,
trace and persisted results content included. -/
theorem evaluation_idempotent (env : EvalEnv) (ms : ModelState)
    (cfg : EvalArgs) (stream : List Batch) :
    (evaluate_fn env ms cfg stream).model_state.params = ms.params ∧
    (ms.training = false →
      (evaluate_fn env ms cfg stream).model_state = ms ∧
      evaluate_fn env (evaluate_fn env ms cfg stream).model_state cfg stream =
        evaluate_fn env ms cfg stream) := by
  have hms : (evaluate_fn env ms cfg stream).model_state =
      { ms with training := false } := rfl
  refine ⟨by rw [hms], fun h => ?_⟩
  have heq : ({ ms with training := false } : ModelState) = ms := by
    cases ms
    simp_all
  exact ⟨by rw [hms, heq], by rw [hms, heq]⟩

/-- Witness for C7 at a concrete frozen model. -/
theorem evaluation_idempotent_witness :
    wMs.training = false ∧
    evaluate_fn wEnv (evaluate_fn wEnv wMs wCfgRec [wBatch]).model_state
        wCfgRec [wBatch] =
      evaluate_fn wEnv wMs wCfgRec [wBatch] :=
  ⟨rfl, ((evaluation_idempotent wEnv wMs wCfgRec [wBatch]).2 rfl).2⟩

/-- C9: with translation enabled and recognition disabled, evaluate_fn never
returns normally: the evaluation_results local is created only by the
recognition branch but assigned by the translation branch. -/
theorem translation_only_raises (env : EvalEnv) (ms : ModelState)
    (cfg : EvalArgs) (stream : List Batch)
    (h1 : cfg.do_translation = true) (h2 : cfg.do_recognition = false)
    (h3 : stream ≠ []) :
    ∃ e2, (evaluate_fn env ms cfg stream).result = .error e2 := by
  have hrp : recogPhase env { cfg with print_freq := 10 }
      (passState env ms cfg stream) =
      ([], .ok ((passState env ms cfg stream).ml, none)) := by
    unfold recogPhase
    simp [h2]
  have hpp : ∃ e2, (postPass env { cfg with print_freq := 10 }
      (passState env ms cfg stream)).2 = .error e2 := by
    unfold postPass
    rw [hrp]
    simp only [h1, if_true]
    cases htr : transScore env cfg.level (passState env ms cfg stream).results
        none (passState env ms cfg stream).ml with
    | mk tevs res3 =>
      cases res3 with
      | error e2 => exact ⟨e2, rfl⟩
      | ok pr =>
        obtain ⟨e2, he2⟩ := transScore_none_err env cfg.level
          (passState env ms cfg stream).results (passState env ms cfg stream).ml
        rw [htr] at he2
        simp at he2
  obtain ⟨e2, he2⟩ := hpp
  refine ⟨e2, ?_⟩
  show (evalTail (postPass env { cfg with print_freq := 10 }
    (passState env ms cfg stream)).2).2 = .error e2
  rw [he2]
  rfl

/-- Witness for C9 at concrete translation-only arguments. -/
theorem translation_only_witness :
    wCfgTrans.do_translation = true ∧ wCfgTrans.do_recognition = false ∧
    ([wBatch] : List Batch) ≠ [] ∧
    (∃ e2, (evaluate_fn wEnv wMs wCfgTrans [wBatch]).result = .error e2) :=
  ⟨rfl, rfl, by simp,
    translation_only_raises wEnv wMs wCfgTrans [wBatch] rfl rfl (by simp)⟩

theorem wer_key_ne (k : String) : ¬("wer" = k ++ "wer_list") := by
  intro h
  have h2 := congrArg String.length h
  rw [String.length_append] at h2
  have h3 : ("wer" : String).length = 3 := by decide
  have h4 : ("wer_list" : String).length = 8 := by decide
  omega

theorem getWer_set_wer (er : EvalResultsMap) (x : ℚ) :
    getWer (pySet er "wer" (.num x)) = x := by
  unfold getWer
  rw [pyFind?_pySet]
  simp

theorem getWer_set_werlist (er : EvalResultsMap) (k : String) (v : EvalVal) :
    getWer (pySet er (k ++ "wer_list") v) = getWer er := by
  unfold getWer
  rw [pyFind?_pySet]
  rw [if_neg (wer_key_ne k)]

theorem foldr_min_swap (a b : ℚ) (l : List ℚ) :
    l.foldr min (min a b) = min a (l.foldr min b) := by
  induction l with
  | nil => simp
  | cons c t ih =>
    simp only [List.foldr]
    rw [ih, min_left_comm]

theorem scoreHeads_wer (env : EvalEnv) (results : Results) (keys : List String) :
    ∀ er evs evs2 er2,
      scoreHeads env results keys er evs = (evs2, .ok er2) →
      getWer er2 = ((keys.filter (fun k => containsStr k "gls_hyp")).map
        (headWerOf env results)).foldr min (getWer er) := by
  induction keys with
  | nil =>
    intro er evs evs2 er2 h
    simp only [scoreHeads, Prod.mk.injEq, Except.ok.injEq] at h
    obtain ⟨-, hres⟩ := h
    subst hres
    simp
  | cons hk t ih =>
    intro er evs evs2 er2 h
    by_cases hc : containsStr hk "gls_hyp" = false
    · rw [scoreHeads, if_pos hc] at h
      rw [List.filter_cons_of_neg (by simp [hc])]
      exact ih er evs evs2 er2 h
    · rw [scoreHeads, if_neg hc] at h
      have hc2 : containsStr hk "gls_hyp" = true := by
        cases hcv : containsStr hk "gls_hyp"
        · exact absurd hcv hc
        · rfl
      cases hr : collectField results "gls_ref" with
      | error e2 => rw [hr] at h; simp at h
      | ok refs =>
        rw [hr] at h
        cases hh : collectField results hk with
        | error e2 => rw [hh] at h; simp at h
        | ok hyps =>
          rw [hh] at h
          simp only at h
          have ihh := ih _ _ _ _ h
          rw [getWer_set_wer] at ihh
          rw [getWer_set_werlist] at ihh
          rw [List.filter_cons_of_pos (by simp [hc2]), List.map_cons,
            List.foldr_cons]
          rw [ihh, foldr_min_swap]
          unfold headWerOf
          rw [hr, hh]

theorem scoreHeads_heads (env : EvalEnv) (results : Results) (keys : List String) :
    ∀ er evs evs2 er2,
      scoreHeads env results keys er evs = (evs2, .ok er2) →
      werCallHeads evs2 = werCallHeads evs ++
        keys.filter (fun k => containsStr k "gls_hyp") := by
  induction keys with
  | nil =>
    intro er evs evs2 er2 h
    simp only [scoreHeads, Prod.mk.injEq, Except.ok.injEq] at h
    obtain ⟨hevs, -⟩ := h
    subst hevs
    simp
  | cons hk t ih =>
    intro er evs evs2 er2 h
    by_cases hc : containsStr hk "gls_hyp" = false
    · rw [scoreHeads, if_pos hc] at h
      rw [List.filter_cons_of_neg (by simp [hc])]
      exact ih er evs evs2 er2 h
    · rw [scoreHeads, if_neg hc] at h
      have hc2 : containsStr hk "gls_hyp" = true := by
        cases hcv : containsStr hk "gls_hyp"
        · exact absurd hcv hc
        · rfl
      cases hr : collectField results "gls_ref" with
      | error e2 => rw [hr] at h; simp at h
      | ok refs =>
        rw [hr] at h
        cases hh : collectField results hk with
        | error e2 => rw [hh] at h; simp at h
        | ok hyps =>
          rw [hh] at h
          simp only at h
          have ihh := ih _ _ _ _ h
          rw [ihh]
          rw [List.filter_cons_of_pos (by simp [hc2])]
          simp [werCallHeads, List.filterMap_append]

/-- C3: on a successful recognition scoring pass with at least one gloss
head, the wer entry of the evaluation results equals the minimum over all
scored heads of the per-head corpus wer computed by wer_list over all
accumulated hypothesis and reference pairs, folded from the 200 sentinel. -/
theorem min_wer_over_scored_heads (env : EvalEnv) (results : Results)
    (nm : String)
    (hok : isOkR (recogScore env results (some nm)) = true)
    (hne : glsKeysOf (resGet results nm) ≠ []) :
    werOfRun (recogScore env results (some nm)) =
      minSentinel ((glsKeysOf (resGet results nm)).map (headWerOf env results)) := by
  cases hsc : scoreHeads env results ((resGet results nm).map Prod.fst)
      [("wer", EvalVal.num 200)] [] with
  | mk evs2 res2 =>
    have hre : recogScore env results (some nm) = (evs2, res2) := by
      simp only [recogScore]
      exact hsc
    rw [hre] at hok ⊢
    cases res2 with
    | error err => simp [isOkR] at hok
    | ok er2 =>
      have hw := scoreHeads_wer env results _ _ _ _ _ hsc
      have h200 : getWer [("wer", EvalVal.num 200)] = 200 := rfl
      rw [h200] at hw
      simp only [werOfRun, minSentinel, glsKeysOf]
      exact hw

/-- C5: the set of heads scored after the pass is exactly the set of gls_hyp
field keys of the entry of the sample name left bound by the batch loop,
and when every sample entry carries the same gls_hyp key set, every head
seen during the pass gets a per-head wer. -/
theorem scored_heads_from_last_sample (env : EvalEnv) (results : Results)
    (nm : String)
    (hok : isOkR (recogScore env results (some nm)) = true) :
    werCallHeads (recogScore env results (some nm)).1 =
      glsKeysOf (resGet results nm) ∧
    (∀ n d, pyFind? results n = some d →
      (∀ k, k ∈ glsKeysOf d ↔ k ∈ glsKeysOf (resGet results nm)) →
      ∀ k, k ∈ glsKeysOf d →
        k ∈ werCallHeads (recogScore env results (some nm)).1) := by
  cases hsc : scoreHeads env results ((resGet results nm).map Prod.fst)
      [("wer", EvalVal.num 200)] [] with
  | mk evs2 res2 =>
    have hre : recogScore env results (some nm) = (evs2, res2) := by
      simp only [recogScore]
      exact hsc
    rw [hre] at hok ⊢
    cases res2 with
    | error err => simp [isOkR] at hok
    | ok er2 =>
      have hh := scoreHeads_heads env results _ _ _ _ _ hsc
      have hmain : werCallHeads evs2 = glsKeysOf (resGet results nm) := by
        rw [hh]
        simp [werCallHeads, glsKeysOf]
      refine ⟨hmain, fun n d hfind hiff k hk => ?_⟩
      show k ∈ werCallHeads evs2
      rw [hmain]
      exact (hiff k).1 hk

/-- Witness for C3 on a concrete two-sample results table. -/
theorem min_wer_witness :
    isOkR (recogScore wEnv wResults (some "B")) = true ∧
    glsKeysOf (resGet wResults "B") ≠ [] ∧
    werOfRun (recogScore wEnv wResults (some "B")) =
      minSentinel ((glsKeysOf (resGet wResults "B")).map (headWerOf wEnv wResults)) :=
  ⟨by decide, by decide,
    min_wer_over_scored_heads wEnv wResults "B" (by decide) (by decide)⟩

/-- Witness for C5 on a concrete two-sample results table. -/
theorem scored_heads_witness :
    isOkR (recogScore wEnv wResults (some "B")) = true ∧
    werCallHeads (recogScore wEnv wResults (some "B")).1 =
      glsKeysOf (resGet wResults "B") :=
  ⟨by decide, (scored_heads_from_last_sample wEnv wResults "B" (by decide)).1⟩

/-- C6 (amended): for every call with a results path whose recognition
scoring step does not raise (in particular whenever recognition is
disabled), the full per-sample results table is serialized exactly once,
after recognition scoring and before translation scoring, by a truncating
write. -/
theorem results_file_written_once (env : EvalEnv) (ms : ModelState)
    (cfg : EvalArgs) (stream : List Batch) (p : String)
    (hpath : cfg.results_path = some p)
    (hrec : cfg.do_recognition = true →
      isOkR (recogScore env (passState env ms cfg stream).results
        (passState env ms cfg stream).lastName) = true) :
    ∃ A B, (evaluate_fn env ms cfg stream).trace =
        A ++ EvalEvent.fileWrite p (passState env ms cfg stream).results :: B ∧
      (∀ q c, EvalEvent.fileWrite q c ∈ A → False) ∧
      (∀ q c, EvalEvent.fileWrite q c ∈ B → False) ∧
      (∀ h2, EvalEvent.werCall h2 ∈ B → False) ∧
      EvalEvent.bleuCall ∉ A := by
  have hphase : ∃ evs ml1 erOpt,
      recogPhase env { cfg with print_freq := 10 }
        (passState env ms cfg stream) = (evs, .ok (ml1, erOpt)) ∧
      (∀ e ∈ evs, ∃ h2, e = EvalEvent.werCall h2) := by
    cases hcr : cfg.do_recognition with
    | false =>
      refine ⟨[], (passState env ms cfg stream).ml, none, ?_, by simp⟩
      unfold recogPhase
      simp [hcr]
    | true =>
      have hok := hrec hcr
      cases hsc : recogScore env (passState env ms cfg stream).results
          (passState env ms cfg stream).lastName with
      | mk evs res =>
        rw [hsc] at hok
        cases res with
        | error err => simp [isOkR] at hok
        | ok er =>
          refine ⟨evs, mlUpdate (passState env ms cfg stream).ml "wer"
            (.finite (getWer er)), some er, ?_, ?_⟩
          · unfold recogPhase
            simp only [hcr, if_true]
            rw [hsc]
          · intro e he
            exact recogScore_events env _ _ e (by rw [hsc]; exact he)
  obtain ⟨evs, ml1, erOpt, hrp, hevs⟩ := hphase
  obtain ⟨tEvs, res2, hshape, htE⟩ :=
    postPass_ok env { cfg with print_freq := 10 }
      (passState env ms cfg stream) evs ml1 erOpt hrp
  have hwt : writeTrace ({ cfg with print_freq := 10 } : EvalArgs).results_path
      (passState env ms cfg stream).results =
      [EvalEvent.fileWrite p (passState env ms cfg stream).results] := by
    show writeTrace cfg.results_path _ = _
    rw [hpath]
    rfl
  rw [hwt] at hshape
  have htrace : (evaluate_fn env ms cfg stream).trace =
      EvalEvent.gradOff :: ((passState env ms cfg stream).trace ++
        (postPass env { cfg with print_freq := 10 }
          (passState env ms cfg stream)).1) ++
      EvalEvent.gradOn :: (evalTail (postPass env { cfg with print_freq := 10 }
        (passState env ms cfg stream)).2).1 := rfl
  refine ⟨EvalEvent.gradOff :: ((passState env ms cfg stream).trace ++ evs),
    tEvs ++ EvalEvent.gradOn :: (evalTail (postPass env
      { cfg with print_freq := 10 } (passState env ms cfg stream)).2).1,
    ?_, ?_, ?_, ?_, ?_⟩
  · rw [htrace, hshape]
    simp [List.append_assoc]
  · intro q c hmem
    rcases List.mem_cons.1 hmem with h | h
    · simp at h
    · rcases List.mem_append.1 h with h2 | h2
      · have h3 : EvalEvent.fileWrite q c ∈ (runPass env
            { ms with training := false } { cfg with print_freq := 10 }
            { results := [], lastName := none, ml := [],
              trace := [EvalEvent.logFreq 10] } stream).trace := h2
        rcases runPass_trace_mem env _ _ stream _ _ h3 with h4 | ⟨b2, h4⟩
        · simp at h4
        · simp at h4
      · obtain ⟨h5, h6⟩ := hevs _ h2
        simp at h6
  · intro q c hmem
    rcases List.mem_append.1 hmem with h | h
    · rcases htE with h2 | h2 <;> rw [h2] at h <;> simp at h
    · rcases List.mem_cons.1 h with h2 | h2
      · simp at h2
      · obtain ⟨tag, h3⟩ := evalTail_events _ _ h2
        simp at h3
  · intro h2 hmem
    rcases List.mem_append.1 hmem with h | h
    · rcases htE with h3 | h3 <;> rw [h3] at h <;> simp at h
    · rcases List.mem_cons.1 h with h3 | h3
      · simp at h3
      · obtain ⟨tag, h4⟩ := evalTail_events _ _ h3
        simp at h4
  · intro hmem
    rcases List.mem_cons.1 hmem with h | h
    · simp at h
    · rcases List.mem_append.1 h with h2 | h2
      · have h3 : EvalEvent.bleuCall ∈ (runPass env
            { ms with training := false } { cfg with print_freq := 10 }
            { results := [], lastName := none, ml := [],
              trace := [EvalEvent.logFreq 10] } stream).trace := h2
        rcases runPass_trace_mem env _ _ stream _ _ h3 with h4 | ⟨b2, h4⟩
        · simp at h4
        · simp at h4
      · obtain ⟨h5, h6⟩ := hevs _ h2
        simp at h6

/-- Counterexample to C6 as stated: with recognition enabled (the default),
a results path supplied and an empty stream, evaluate_fn raises NameError
inside recognition scoring before the write, so no file write happens at
all. -/
theorem results_file_counterexample :
    wCfgRec.results_path = some "results.json" ∧
    (evaluate_fn wEnv wMs wCfgRec []).trace.countP isFileWrite = 0 ∧
    (evaluate_fn wEnv wMs wCfgRec []).result =
      .error (PyErr.nameError "name") := by
  refine ⟨rfl, ?_, ?_⟩ <;> decide

/-- Witness for the amended C6 on a concrete one-batch pass. -/
theorem results_file_witness :
    wCfgRec.results_path = some "results.json" ∧
    isOkR (recogScore wEnv (passState wEnv wMs wCfgRec [wBatch]).results
      (passState wEnv wMs wCfgRec [wBatch]).lastName) = true ∧
    (∃ A B, (evaluate_fn wEnv wMs wCfgRec [wBatch]).trace =
        A ++ EvalEvent.fileWrite "results.json"
          (passState wEnv wMs wCfgRec [wBatch]).results :: B ∧
      (∀ q c, EvalEvent.fileWrite q c ∈ A → False) ∧
      (∀ q c, EvalEvent.fileWrite q c ∈ B → False) ∧
      (∀ h2, EvalEvent.werCall h2 ∈ B → False) ∧
      EvalEvent.bleuCall ∉ A) :=
  ⟨rfl, by decide,
    results_file_written_once wEnv wMs wCfgRec [wBatch] "results.json" rfl
      (fun _ => by decide)⟩

theorem zip3_nil {α β γ : Type} (bs : List β) (cs : List γ) :
    zip3 ([] : List α) bs cs = [] := by
  cases bs <;> cases cs <;> rfl

theorem zip3_cons {α β γ : Type} (a : α) (as2 : List α) (b : β) (bs2 : List β)
    (c : γ) (cs2 : List γ) :
    zip3 (a :: as2) (b :: bs2) (c :: cs2) = (a, b, c) :: zip3 as2 bs2 cs2 := rfl

theorem zip3_mem_fst {α β γ : Type} (as : List α) :
    ∀ (bs : List β) (cs : List γ) t, t ∈ zip3 as bs cs → t.1 ∈ as := by
  induction as with
  | nil => intro bs cs t ht; rw [zip3_nil] at ht; cases ht
  | cons a as2 ih =>
    intro bs cs t ht
    cases bs with
    | nil =>
      have : zip3 (a :: as2) ([] : List β) cs = [] := by cases cs <;> rfl
      rw [this] at ht; cases ht
    | cons b bs2 =>
      cases cs with
      | nil =>
        have : zip3 (a :: as2) (b :: bs2) ([] : List γ) = [] := rfl
        rw [this] at ht; cases ht
      | cons c cs2 =>
        rw [zip3_cons] at ht
        rcases List.mem_cons.1 ht with h | h
        · subst h; exact List.mem_cons_self _ _
        · exact List.mem_cons_of_mem _ (ih bs2 cs2 t h)

theorem zip3_exists {α β γ : Type} (as : List α) :
    ∀ (bs : List β) (cs : List γ) a, a ∈ as →
      as.length ≤ bs.length → as.length ≤ cs.length →
      ∃ b c, (a, b, c) ∈ zip3 as bs cs := by
  induction as with
  | nil => intro bs cs a ha _ _; cases ha
  | cons a2 as2 ih =>
    intro bs cs a ha hb hc
    cases bs with
    | nil => simp at hb
    | cons b2 bs2 =>
      cases cs with
      | nil => simp at hc
      | cons c2 cs2 =>
        rw [zip3_cons]
        rcases List.mem_cons.1 ha with h | h
        · subst h; exact ⟨b2, c2, List.mem_cons_self _ _⟩
        · have hb2 : as2.length ≤ bs2.length := by simp at hb; omega
          have hc2 : as2.length ≤ cs2.length := by simp at hc; omega
          obtain ⟨b3, c3, hm⟩ := ih bs2 cs2 a h hb2 hc2
          exact ⟨b3, c3, List.mem_cons_of_mem _ hm⟩

theorem writeGls_keys (lower : Bool) (ln : String)
    (st : Results × Option String) (t : String × String × String) (n2 : String) :
    n2 ∈ keysOf (writeGls lower ln st t).1 ↔ n2 ∈ keysOf st.1 ∨ n2 = t.1 := by
  unfold writeGls
  simp only
  rw [mem_keysOf_resSet, mem_keysOf_resSet]
  tauto

theorem transWrite_keys (st : Results × Option String)
    (t : String × String × String) (n2 : String) :
    n2 ∈ keysOf (transWrite st t).1 ↔ n2 ∈ keysOf st.1 ∨ n2 = t.1 := by
  unfold transWrite
  simp only
  rw [mem_keysOf_resSet, mem_keysOf_resSet]
  tauto

theorem foldl_keys_mono {β : Type}
    (f : Results × Option String → β → Results × Option String)
    (hf : ∀ st x n, n ∈ keysOf st.1 → n ∈ keysOf (f st x).1) :
    ∀ (l : List β) (st : Results × Option String) n,
      n ∈ keysOf st.1 → n ∈ keysOf (l.foldl f st).1 := by
  intro l
  induction l with
  | nil => intro st n h; exact h
  | cons x xs ih => intro st n h; exact ih (f st x) n (hf st x n h)

theorem foldl_keys_sub {β : Type}
    (f : Results × Option String → β → Results × Option String)
    (names : List String) (l : List β)
    (hl : ∀ x ∈ l, ∀ st n, n ∈ keysOf (f st x).1 → n ∈ keysOf st.1 ∨ n ∈ names) :
    ∀ st n, n ∈ keysOf (l.foldl f st).1 → n ∈ keysOf st.1 ∨ n ∈ names := by
  induction l with
  | nil => intro st n h; exact Or.inl h
  | cons x xs ih =>
    intro st n h
    rcases ih (fun y hy => hl y (List.mem_cons_of_mem _ hy)) (f st x) n h with h2 | h2
    · exact hl x (List.mem_cons_self _ _) st n h2
    · exact Or.inr h2

theorem foldl_keys_reach {β : Type}
    (f : Results × Option String → β → Results × Option String)
    (n : String) (x : β)
    (hmono : ∀ st y n2, n2 ∈ keysOf st.1 → n2 ∈ keysOf (f st y).1)
    (hwrite : ∀ st, n ∈ keysOf (f st x).1) :
    ∀ (l : List β), x ∈ l → ∀ st, n ∈ keysOf (l.foldl f st).1 := by
  intro l
  induction l with
  | nil => intro h st; cases h
  | cons y ys ih =>
    intro hx st
    rcases List.mem_cons.1 hx with h | h
    · subst h
      exact foldl_keys_mono f hmono ys (f st x) n (hwrite st)
    · exact ih h (f st y)

theorem recogItem_keys_sub (env : EvalEnv) (beam : Nat) (out : ModelOutput)
    (b : Batch) (kv : String × Nat) (st : Results × Option String) (n : String)
    (h : n ∈ keysOf (recogItem env beam out b st kv).1) :
    n ∈ keysOf st.1 ∨ n ∈ b.name := by
  unfold recogItem at h
  by_cases hc : containsStr kv.1 "gloss_logits" = false
  · rw [if_pos hc] at h; exact Or.inl h
  · rw [if_neg hc] at h
    refine foldl_keys_sub _ b.name _ ?_ st n h
    intro x hx st2 n2 h2
    rcases (writeGls_keys _ _ st2 x n2).1 h2 with h3 | h3
    · exact Or.inl h3
    · exact Or.inr (h3 ▸ zip3_mem_fst _ _ _ x hx)

theorem recogItem_keys_mono (env : EvalEnv) (beam : Nat) (out : ModelOutput)
    (b : Batch) (kv : String × Nat) (st : Results × Option String) (n : String)
    (h : n ∈ keysOf st.1) : n ∈ keysOf (recogItem env beam out b st kv).1 := by
  unfold recogItem
  by_cases hc : containsStr kv.1 "gloss_logits" = false
  · rw [if_pos hc]; exact h
  · rw [if_neg hc]
    exact foldl_keys_mono _
      (fun st2 x n2 h2 => (writeGls_keys _ _ st2 x n2).2 (Or.inl h2)) _ st n h

theorem recogBranch_keys_sub (env : EvalEnv) (cfg : EvalArgs) (out : ModelOutput)
    (b : Batch) (st : Results × Option String) (n : String)
    (h : n ∈ keysOf (recogBranch env cfg out b st).1) :
    n ∈ keysOf st.1 ∨ n ∈ b.name := by
  unfold recogBranch at h
  by_cases hc : cfg.do_recognition = true
  · rw [if_pos hc] at h
    exact foldl_keys_sub _ b.name _
      (fun kv _ st2 n2 h2 => recogItem_keys_sub env cfg.beam_size out b kv st2 n2 h2)
      st n h
  · rw [if_neg hc] at h; exact Or.inl h

theorem recogBranch_keys_mono (env : EvalEnv) (cfg : EvalArgs) (out : ModelOutput)
    (b : Batch) (st : Results × Option String) (n : String)
    (h : n ∈ keysOf st.1) : n ∈ keysOf (recogBranch env cfg out b st).1 := by
  unfold recogBranch
  by_cases hc : cfg.do_recognition = true
  · rw [if_pos hc]
    exact foldl_keys_mono _
      (fun st2 kv n2 h2 => recogItem_keys_mono env cfg.beam_size out b kv st2 n2 h2)
      _ st n h
  · rw [if_neg hc]; exact h

theorem transBranch_keys_sub (env : EvalEnv) (cfg : EvalArgs) (out : ModelOutput)
    (b : Batch) (st : Results × Option String) (n : String)
    (h : n ∈ keysOf (transBranch env cfg out b st).1) :
    n ∈ keysOf st.1 ∨ n ∈ b.name := by
  unfold transBranch at h
  by_cases hc : cfg.do_translation = true
  · rw [if_pos hc] at h
    refine foldl_keys_sub _ b.name _ ?_ st n h
    intro x hx st2 n2 h2
    rcases (transWrite_keys st2 x n2).1 h2 with h3 | h3
    · exact Or.inl h3
    · exact Or.inr (h3 ▸ zip3_mem_fst _ _ _ x hx)
  · rw [if_neg hc] at h; exact Or.inl h

theorem transBranch_keys_mono (env : EvalEnv) (cfg : EvalArgs) (out : ModelOutput)
    (b : Batch) (st : Results × Option String) (n : String)
    (h : n ∈ keysOf st.1) : n ∈ keysOf (transBranch env cfg out b st).1 := by
  unfold transBranch
  by_cases hc : cfg.do_translation = true
  · rw [if_pos hc]
    exact foldl_keys_mono _
      (fun st2 x n2 h2 => (transWrite_keys st2 x n2).2 (Or.inl h2)) _ st n h
  · rw [if_neg hc]; exact h

theorem evalBatch_results (env : EvalEnv) (ms : ModelState) (cfg : EvalArgs)
    (st : LoopState) (b : Batch) :
    (evalBatch env ms cfg st b).results =
      (transBranch env cfg (env.forward ms b) b
        (recogBranch env cfg (env.forward ms b) b (st.results, st.lastName))).1 := rfl

theorem evalBatch_keys_sub (env : EvalEnv) (ms : ModelState) (cfg : EvalArgs)
    (st : LoopState) (b : Batch) (n : String)
    (h : n ∈ keysOf (evalBatch env ms cfg st b).results) :
    n ∈ keysOf st.results ∨ n ∈ b.name := by
  rw [evalBatch_results] at h
  rcases transBranch_keys_sub env cfg _ b _ n h with h2 | h2
  · exact recogBranch_keys_sub env cfg _ b _ n h2
  · exact Or.inr h2

theorem evalBatch_keys_mono (env : EvalEnv) (ms : ModelState) (cfg : EvalArgs)
    (st : LoopState) (b : Batch) (n : String)
    (h : n ∈ keysOf st.results) :
    n ∈ keysOf (evalBatch env ms cfg st b).results := by
  rw [evalBatch_results]
  exact transBranch_keys_mono env cfg _ b _ n (recogBranch_keys_mono env cfg _ b _ n h)

theorem runPass_keys_sub (env : EvalEnv) (ms : ModelState) (cfg : EvalArgs)
    (stream : List Batch) :
    ∀ st0 n, n ∈ keysOf (runPass env ms cfg st0 stream).results →
      n ∈ keysOf st0.results ∨ n ∈ stream.flatMap Batch.name := by
  induction stream with
  | nil => intro st0 n h; exact Or.inl h
  | cons b bs ih =>
    intro st0 n h
    rw [runPass_cons] at h
    rcases ih _ n h with h2 | h2
    · rcases evalBatch_keys_sub env ms cfg st0 b n h2 with h3 | h3
      · exact Or.inl h3
      · exact Or.inr (by rw [List.flatMap_cons]; exact List.mem_append_left _ h3)
    · exact Or.inr (by rw [List.flatMap_cons]; exact List.mem_append_right _ h2)

theorem runPass_keys_mono (env : EvalEnv) (ms : ModelState) (cfg : EvalArgs)
    (stream : List Batch) :
    ∀ st0 n, n ∈ keysOf st0.results →
      n ∈ keysOf (runPass env ms cfg st0 stream).results := by
  induction stream with
  | nil => intro st0 n h; exact h
  | cons b bs ih =>
    intro st0 n h
    rw [runPass_cons]
    exact ih _ n (evalBatch_keys_mono env ms cfg st0 b n h)

theorem evalBatch_covers (env : EvalEnv) (ms : ModelState) (cfg : EvalArgs)
    (b : Batch) (st : LoopState)
    (hcr : cfg.do_recognition = true)
    (hcov : covers env ms cfg.beam_size b = true) :
    ∀ nm ∈ b.name, nm ∈ keysOf (evalBatch env ms cfg st b).results := by
  intro nm hnm
  rw [evalBatch_results]
  apply transBranch_keys_mono
  unfold recogBranch
  rw [if_pos hcr]
  unfold covers at hcov
  rw [List.any_eq_true] at hcov
  obtain ⟨kv, hkv, hprops⟩ := hcov
  simp only [Bool.and_eq_true, decide_eq_true_eq] at hprops
  obtain ⟨⟨hgl, hlen1⟩, hlen2⟩ := hprops
  refine foldl_keys_reach _ nm kv
    (fun st2 y n2 h2 => recogItem_keys_mono env cfg.beam_size _ b y st2 n2 h2)
    ?_ _ hkv _
  intro st2
  unfold recogItem
  rw [if_neg (by rw [hgl]; simp)]
  obtain ⟨y, z, hm⟩ := zip3_exists b.name _ _ nm hnm hlen1 hlen2
  exact foldl_keys_reach _ nm (nm, y, z)
    (fun st3 t n2 h2 => (writeGls_keys _ _ st3 t n2).2 (Or.inl h2))
    (fun st3 => (writeGls_keys _ _ st3 (nm, y, z) nm).2 (Or.inr rfl)) _ hm st2

theorem runPass_keys_covered (env : EvalEnv) (ms : ModelState) (cfg : EvalArgs)
    (stream : List Batch)
    (hcr : cfg.do_recognition = true)
    (hcov : ∀ b ∈ stream, covers env ms cfg.beam_size b = true) :
    ∀ st0 n, n ∈ stream.flatMap Batch.name →
      n ∈ keysOf (runPass env ms cfg st0 stream).results := by
  induction stream with
  | nil => intro st0 n h; simp at h
  | cons b bs ih =>
    intro st0 n h
    rw [List.flatMap_cons, List.mem_append] at h
    rw [runPass_cons]
    rcases h with h2 | h2
    · exact runPass_keys_mono env ms cfg bs _ n
        (evalBatch_covers env ms cfg b st0 hcr
          (hcov b (List.mem_cons_self _ _)) n h2)
    · exact ih (fun b2 hb2 => hcov b2 (List.mem_cons_of_mem _ hb2)) _ n h2

theorem txtField_cases (k : String) (h : txtField k = true) :
    k = "txt_hyp" ∨ k = "txt_ref" := by
  simp only [txtField, Bool.or_eq_true, beq_iff_eq] at h
  exact h

theorem txtField_ne_glskey (k ln : String) (h : txtField k = true) :
    ¬(k = ln ++ "_gls_hyp") ∧ ¬(k = "gls_ref") := by
  have hlen : k.length = 7 := by
    rcases txtField_cases k h with h2 | h2 <;> subst h2 <;> decide
  constructor
  · intro he
    have h3 := congrArg String.length he
    rw [String.length_append] at h3
    have h5 : ("_gls_hyp" : String).length = 8 := by decide
    omega
  · intro he
    rcases txtField_cases k h with h2 | h2 <;> rw [h2] at he <;> simp at he

theorem glossField_ne_txt (k : String) (h : glossField k = true) :
    ¬(k = "txt_hyp") ∧ ¬(k = "txt_ref") := by
  constructor <;> intro he <;> subst he <;> exact absurd h (by decide)

theorem foldl_fields_pres {β : Type}
    (f : Results × Option String → β → Results × Option String)
    (n2 k2 : String)
    (hf : ∀ st x, fieldAt (f st x).1 n2 k2 = fieldAt st.1 n2 k2) :
    ∀ (l : List β) st, fieldAt (l.foldl f st).1 n2 k2 = fieldAt st.1 n2 k2 := by
  intro l
  induction l with
  | nil => intro st; rfl
  | cons x xs ih => intro st; rw [List.foldl_cons, ih, hf]

theorem writeGls_fields (lower : Bool) (ln : String)
    (st : Results × Option String) (t : String × String × String)
    (n2 k2 : String) (hk : txtField k2 = true) :
    fieldAt (writeGls lower ln st t).1 n2 k2 = fieldAt st.1 n2 k2 := by
  obtain ⟨h1, h2⟩ := txtField_ne_glskey k2 ln hk
  unfold writeGls
  simp only
  rw [fieldAt_resSet, fieldAt_resSet]
  rw [if_neg (fun hand => h2 hand.2), if_neg (fun hand => h1 hand.2)]

theorem recogItem_fields (env : EvalEnv) (beam : Nat) (out : ModelOutput)
    (b : Batch) (kv : String × Nat) (st : Results × Option String)
    (n2 k2 : String) (hk : txtField k2 = true) :
    fieldAt (recogItem env beam out b st kv).1 n2 k2 = fieldAt st.1 n2 k2 := by
  unfold recogItem
  by_cases hc : containsStr kv.1 "gloss_logits" = false
  · rw [if_pos hc]
  · rw [if_neg hc]
    exact foldl_fields_pres _ n2 k2
      (fun st2 x => writeGls_fields _ _ st2 x n2 k2 hk) _ st

theorem transWrite_fields (st : Results × Option String)
    (t : String × String × String) (n2 k2 : String)
    (hk : glossField k2 = true) :
    fieldAt (transWrite st t).1 n2 k2 = fieldAt st.1 n2 k2 := by
  obtain ⟨h1, h2⟩ := glossField_ne_txt k2 hk
  unfold transWrite
  simp only
  rw [fieldAt_resSet, fieldAt_resSet]
  rw [if_neg (fun hand => h2 hand.2), if_neg (fun hand => h1 hand.2)]

theorem evalBatch_fields_txt (env : EvalEnv) (ms : ModelState) (cfg : EvalArgs)
    (st : LoopState) (b : Batch) (n2 k2 : String)
    (ht : cfg.do_translation = false) (hk : txtField k2 = true) :
    fieldAt (evalBatch env ms cfg st b).results n2 k2 =
      fieldAt st.results n2 k2 := by
  rw [evalBatch_results]
  unfold transBranch
  rw [ht]
  simp only [Bool.false_eq_true, if_false]
  unfold recogBranch
  by_cases hc : cfg.do_recognition = true
  · rw [if_pos hc]
    exact foldl_fields_pres _ n2 k2
      (fun st2 kv => recogItem_fields env cfg.beam_size _ b kv st2 n2 k2 hk) _ _
  · rw [if_neg hc]

theorem evalBatch_fields_gls (env : EvalEnv) (ms : ModelState) (cfg : EvalArgs)
    (st : LoopState) (b : Batch) (n2 k2 : String)
    (hr : cfg.do_recognition = false) (hk : glossField k2 = true) :
    fieldAt (evalBatch env ms cfg st b).results n2 k2 =
      fieldAt st.results n2 k2 := by
  rw [evalBatch_results]
  unfold recogBranch
  rw [hr]
  simp only [Bool.false_eq_true, if_false]
  unfold transBranch
  by_cases hc : cfg.do_translation = true
  · rw [if_pos hc]
    exact foldl_fields_pres _ n2 k2
      (fun st2 x => transWrite_fields st2 x n2 k2 hk) _ _
  · rw [if_neg hc]

theorem runPass_fields_txt (env : EvalEnv) (ms : ModelState) (cfg : EvalArgs)
    (stream : List Batch) (ht : cfg.do_translation = false)
    (n2 k2 : String) (hk : txtField k2 = true) :
    ∀ st0, fieldAt (runPass env ms cfg st0 stream).results n2 k2 =
      fieldAt st0.results n2 k2 := by
  induction stream with
  | nil => intro st0; rfl
  | cons b bs ih =>
    intro st0
    rw [runPass_cons, ih, evalBatch_fields_txt env ms cfg st0 b n2 k2 ht hk]

theorem runPass_fields_gls (env : EvalEnv) (ms : ModelState) (cfg : EvalArgs)
    (stream : List Batch) (hr : cfg.do_recognition = false)
    (n2 k2 : String) (hk : glossField k2 = true) :
    ∀ st0, fieldAt (runPass env ms cfg st0 stream).results n2 k2 =
      fieldAt st0.results n2 k2 := by
  induction stream with
  | nil => intro st0; rfl
  | cons b bs ih =>
    intro st0
    rw [runPass_cons, ih, evalBatch_fields_gls env ms cfg st0 b n2 k2 hr hk]

/-- C4 (amended): the keys of the results table are exactly the sample names
seen in the consumed batches, provided recognition is enabled and every
batch carries a gloss head whose decoded hypotheses and gloss references
cover all its names; and, unconditionally, the recognition branch leaves the
translation fields of every sample untouched while the translation branch
leaves the gloss fields untouched, so neither branch overwrites the other. -/
theorem results_keys_and_branch_fields (env : EvalEnv) (ms : ModelState)
    (cfg : EvalArgs) (stream : List Batch) (st0 : LoopState) :
    (st0.results = [] → cfg.do_recognition = true →
      (∀ b ∈ stream, covers env ms cfg.beam_size b = true) →
      ∀ n, n ∈ keysOf (runPass env ms cfg st0 stream).results ↔
        n ∈ stream.flatMap Batch.name) ∧
    (cfg.do_translation = false → ∀ n k, txtField k = true →
      fieldAt (runPass env ms cfg st0 stream).results n k =
        fieldAt st0.results n k) ∧
    (cfg.do_recognition = false → ∀ n k, glossField k = true →
      fieldAt (runPass env ms cfg st0 stream).results n k =
        fieldAt st0.results n k) := by
  refine ⟨fun h0 hcr hcov n => ⟨fun h => ?_, fun h => ?_⟩,
    fun ht n k hk => runPass_fields_txt env ms cfg stream ht n k hk st0,
    fun hr n k hk => runPass_fields_gls env ms cfg stream hr n k hk st0⟩
  · rcases runPass_keys_sub env ms cfg stream st0 n h with h2 | h2
    · rw [h0] at h2; cases h2
    · exact h2
  · exact runPass_keys_covered env ms cfg stream hcr hcov st0 n h

/-- Counterexample to C4 as stated: a batch whose forward output exposes no
gloss head leaves the results table empty although its sample names were
seen during the pass. -/
theorem results_keys_counterexample :
    wCfgRec.do_recognition = true ∧
    "A" ∈ ([wBatch] : List Batch).flatMap Batch.name ∧
    "A" ∉ keysOf (runPass xEnvNoHeads wMs wCfgRec wInit [wBatch]).results := by
  refine ⟨rfl, ?_, ?_⟩ <;> decide

/-- Witness for the amended C4 on a covered one-batch stream. -/
theorem results_keys_witness :
    covers wEnv wMs wCfgRec.beam_size wBatch = true ∧
    ("A" ∈ keysOf (runPass wEnv wMs wCfgRec wInit [wBatch]).results ↔
      "A" ∈ ([wBatch] : List Batch).flatMap Batch.name) ∧
    fieldAt (runPass wEnv wMs wCfgRec wInit [wBatch]).results "A" "txt_hyp" =
      fieldAt wInit.results "A" "txt_hyp" :=
  ⟨by decide,
    (results_keys_and_branch_fields wEnv wMs wCfgRec [wBatch] wInit).1 rfl rfl
      (by
        intro b hb
        rw [List.mem_singleton] at hb
        subst hb
        decide) "A",
    (results_keys_and_branch_fields wEnv wMs wCfgRec [wBatch] wInit).2.1 rfl
      "A" "txt_hyp" (by decide)⟩
